import Mathlib

/-!
Verification of the iMessage history reader
(src/messaging-plugin/skills/messaging/scripts/platforms/imessage-read.py).

Shallow embedding conventions:
* a Python `bytes` value is a `List Nat` of byte values (each < 256);
* a Python `str` value is a `List Nat` of Unicode code points;
* `None`-able values are `Option`;
* the sqlite store is an explicit structure of table rows.
-/

/-- Code points (equally, byte values) of an ASCII string literal. -/
def ascii (s : String) : List Nat := s.toList.map Char.toNat

/-- Python `bytes.lower`: lower-cases the ASCII letters A-Z only (exact CPython
semantics for `bytes`). -/
def bytesLower (s : List Nat) : List Nat :=
  s.map (fun b => if 0x41 ≤ b ∧ b ≤ 0x5a then b + 0x20 else b)

/-- Model of Python `str.lower`, restricted to ASCII case mapping.  Every string
compared case-insensitively in the verified claims is ASCII, so the restriction
is invisible to the claims; the full Unicode case table is not modelled. -/
def pyLower (s : List Nat) : List Nat :=
  s.map (fun c => if 0x41 ≤ c ∧ c ≤ 0x5a then c + 0x20 else c)

/-- The code points Python's `str.strip()` removes (the Unicode whitespace set
used by CPython). -/
def pyWsSet : List Nat :=
  [0x09, 0x0a, 0x0b, 0x0c, 0x0d, 0x1c, 0x1d, 0x1e, 0x1f, 0x20, 0x85, 0xa0,
   0x1680, 0x2000, 0x2001, 0x2002, 0x2003, 0x2004, 0x2005, 0x2006, 0x2007,
   0x2008, 0x2009, 0x200a, 0x2028, 0x2029, 0x202f, 0x205f, 0x3000]

/-- Whitespace test for `str.strip()`. -/
def isWs (c : Nat) : Bool := pyWsSet.contains c

/-- Python `str.strip()`: remove leading and trailing whitespace code points. -/
def pyStrip (s : List Nat) : List Nat :=
  (((s.dropWhile isWs).reverse.dropWhile isWs)).reverse

/-- Contiguous-substring test: Python's `x in s` on strings/bytes. -/
def hasSub (needle : List Nat) : List Nat → Bool
  | [] => needle.isEmpty
  | b :: rest => needle.isPrefixOf (b :: rest) || hasSub needle rest

/-- CPython UTF-8 decoding with `errors='ignore'`: maximal valid sequences are
decoded, bytes belonging to invalid or truncated sequences are dropped.  The
`fuel` argument is a step bound; each step consumes at least one byte, so
fuel equal to the input length is always sufficient (see `utf8DecodeIgnore`). -/
def utf8Go : Nat → List Nat → List Nat
  | 0, _ => []
  | _ + 1, [] => []
  | fuel + 1, b :: rest =>
    if b ≤ 0x7f then b :: utf8Go fuel rest
    else if b < 0xc2 then utf8Go fuel rest
    else if b ≤ 0xdf then
      match rest with
      | c :: r2 =>
        if 0x80 ≤ c ∧ c ≤ 0xbf then ((b - 0xc0) * 64 + (c - 0x80)) :: utf8Go fuel r2
        else utf8Go fuel rest
      | [] => []
    else if b ≤ 0xef then
      match rest with
      | c :: r2 =>
        if (if b = 0xe0 then 0xa0 else 0x80) ≤ c ∧ c ≤ (if b = 0xed then 0x9f else 0xbf) then
          match r2 with
          | d :: r3 =>
            if 0x80 ≤ d ∧ d ≤ 0xbf then
              ((b - 0xe0) * 4096 + (c - 0x80) * 64 + (d - 0x80)) :: utf8Go fuel r3
            else utf8Go fuel r2
          | [] => []
        else utf8Go fuel rest
      | [] => []
    else if b ≤ 0xf4 then
      match rest with
      | c :: r2 =>
        if (if b = 0xf0 then 0x90 else 0x80) ≤ c ∧ c ≤ (if b = 0xf4 then 0x8f else 0xbf) then
          match r2 with
          | d :: r3 =>
            if 0x80 ≤ d ∧ d ≤ 0xbf then
              match r3 with
              | e :: r4 =>
                if 0x80 ≤ e ∧ e ≤ 0xbf then
                  ((b - 0xf0) * 262144 + (c - 0x80) * 4096 + (d - 0x80) * 64 + (e - 0x80)) ::
                    utf8Go fuel r4
                else utf8Go fuel r3
              | [] => []
            else utf8Go fuel r2
          | [] => []
        else utf8Go fuel rest
      | [] => []
    else utf8Go fuel rest

/-- `data.decode('utf-8', errors='ignore')` as a code-point list. -/
def utf8DecodeIgnore (data : List Nat) : List Nat := utf8Go data.length data

/-- Byte class of the extraction regexes: printable ASCII 0x20-0x7e or the
extended range 0xc0-0xff (the class `[\x20-\x7e\xc0-\xff]`). -/
def isReadable (b : Nat) : Bool := (0x20 ≤ b && b ≤ 0x7e) || (0xc0 ≤ b && b ≤ 0xff)

/-- Worker for `runs`: `acc` is the current readable run, reversed. -/
def runsGo : List Nat → List Nat → List (List Nat)
  | [], acc => if acc.isEmpty then [] else [acc.reverse]
  | b :: rest, acc =>
    if isReadable b then runsGo rest (b :: acc)
    else if acc.isEmpty then runsGo rest [] else acc.reverse :: runsGo rest []

/-- The maximal contiguous runs of readable bytes of a buffer, in order.
`re.findall(rb'[\x20-\x7e\xc0-\xff]{n,}', data)` is exactly the sublist of
runs of length at least `n`. -/
def runs (data : List Nat) : List (List Nat) := runsGo data []

/-- The metadata byte-strings of the scanner's exclusion list, exactly as in the
source: `[b'nsstring', b'nsmutablestring', b'nsattributed', b'streamtyped']`. -/
def metaCodeTokens : List (List Nat) :=
  [ascii "nsstring", ascii "nsmutablestring", ascii "nsattributed", ascii "streamtyped"]

/-- Readable-Segment Scanner (Method 2 of `extract_text_from_attributed_body`):
collect the maximal readable runs of length at least 4, drop any that contains a
metadata token after byte-lowercasing, take the first longest survivor, decode
and strip it, and return it when non-empty.  Every failure falls through. -/
def readable_segment_scan (data : List Nat) : Option (List Nat) :=
  match runs data |>.filter (fun r => 4 ≤ r.length) with
  | [] => none
  | s0 :: srest =>
    match (s0 :: srest).filter (fun s => !(metaCodeTokens.any (fun t => hasSub t (bytesLower s)))) with
    | [] => none
    | x :: xs =>
      let longest := xs.foldl (fun m r => if m.length < r.length then r else m) x
      let dec := pyStrip (utf8DecodeIgnore longest)
      if dec.isEmpty then none else some dec

/-- The byte string `b'NSString'`. -/
def nsMarker : List Nat := ascii "NSString"

/-- At a position where `NSString` just matched (so `s` begins with the marker),
match the rest of the pattern `rb'NSString.{1,20}?([\x20-\x7e\xc0-\xff]{2,})'`:
the lazy dot tries window widths 1..20 in increasing order (a dot matches any
byte except newline), then the greedy group takes the maximal readable run,
which must have length at least 2. -/
def tryWindow (s : List Nat) : Option (List Nat) :=
  (List.range 20).findSome? (fun k0 =>
    let dots := (s.drop 8).take (k0 + 1)
    if dots.length = k0 + 1 ∧ dots.all (fun b => b ≠ 0x0a) then
      let g := (s.drop (9 + k0)).takeWhile isReadable
      if 2 ≤ g.length then some g else none
    else none)

/-- `re.search` for the proximity pattern: scan start positions left to right;
at the first position where `NSString` matches and some window succeeds, return
the group. -/
def re_search1 : List Nat → Option (List Nat)
  | [] => none
  | b :: rest =>
    if nsMarker.isPrefixOf (b :: rest) then
      match tryWindow (b :: rest) with
      | some g => some g
      | none => re_search1 rest
    else re_search1 rest

/-- Big-endian unsigned integer of `k` bytes at offset `off`; `none` when the
buffer is too short (struct.unpack raising on a short read). -/
def readBE (data : List Nat) (off k : Nat) : Option Nat :=
  let bs := (data.drop off).take k
  if bs.length = k then some (bs.foldl (fun a b => a * 256 + b) 0) else none

/-- Read `n` big-endian references of `sz` bytes each starting at `base`. -/
def readRefs (data : List Nat) (sz : Nat) : Nat → Nat → Option (List Nat)
  | _, 0 => some []
  | base, n + 1 =>
    match readBE data base sz with
    | some r =>
      match readRefs data sz (base + sz) n with
      | some rs => some (r :: rs)
      | none => none
    | none => none

/-- Decoded binary-plist values, restricted to the object kinds the reader's
Method 3 can meet on its search path: ASCII strings, arrays and dictionaries.
Containers with other object kinds make the model decoder fail, which the
caller treats identically to a malformed archive. -/
inductive PVal where
  | pstr : List Nat → PVal
  | parr : List PVal → PVal
  | pdict : List (PVal × PVal) → PVal

/-- Parsed trailer data of a binary plist. -/
structure BPInfo where
  data : List Nat
  offSize : Nat
  refSize : Nat
  nObj : Nat
  tableOff : Nat

/-- Offset of object `ref` from the offset table (`IndexError` on an
out-of-range reference is modelled as `none`). -/
def objOffset (info : BPInfo) (ref : Nat) : Option Nat :=
  if ref < info.nObj then readBE info.data (info.tableOff + ref * info.offSize) info.offSize
  else none

/-- Read the objects named by a list of references, depth-first, following
plistlib's `_read_object`.  Supported tokens: 0x5x ASCII string (short length),
0xAx array, 0xDx dictionary; anything else, including extended 0xF length
markers, fails like a malformed archive.  `fuel` bounds the recursion depth;
each call consumes one unit, and the caller supplies fuel that dominates any
acyclic object graph, so exhaustion only occurs for cyclic graphs — where
plistlib hits `RecursionError`, swallowed by the caller's bare `except`. -/
def readObjsF (info : BPInfo) : Nat → List Nat → Option (List PVal)
  | 0, _ => none
  | _ + 1, [] => some []
  | fuel + 1, ref :: moreRefs =>
    let this1 : Option PVal :=
      match objOffset info ref with
      | none => none
      | some off =>
        match info.data[off]? with
        | none => none
        | some tok =>
          if tok / 16 = 5 then
            (if tok % 16 = 15 then none
             else
               let bs := (info.data.drop (off + 1)).take (tok % 16)
               if bs.all (fun b => b < 0x80) then some (.pstr bs) else none)
          else if tok / 16 = 10 then
            (if tok % 16 = 15 then none
             else
               match readRefs info.data info.refSize (off + 1) (tok % 16) with
               | none => none
               | some refs =>
                 match readObjsF info fuel refs with
                 | none => none
                 | some vs => some (.parr vs))
          else if tok / 16 = 13 then
            (if tok % 16 = 15 then none
             else
               match readRefs info.data info.refSize (off + 1) (tok % 16) with
               | none => none
               | some krefs =>
                 match readRefs info.data info.refSize (off + 1 + tok % 16 * info.refSize) (tok % 16) with
                 | none => none
                 | some vrefs =>
                   match readObjsF info fuel krefs with
                   | none => none
                   | some ks =>
                     match readObjsF info fuel vrefs with
                     | none => none
                     | some vs => some (.pdict (ks.zip vs)))
          else none
    match this1 with
    | none => none
    | some v =>
      match readObjsF info fuel moreRefs with
      | some vs => some (v :: vs)
      | none => none

/-- `plistlib.loads` on binary-plist data, for the supported subset: check the
`bplist00` magic, unpack the `>6xBBQQQ` trailer, validate the offset and
reference integer widths and the offset table, and read the top object. -/
def bplistParse (data : List Nat) : Option PVal :=
  if (ascii "bplist00").isPrefixOf data then
    if data.length < 32 then none
    else
      let tr := data.drop (data.length - 32)
      match readBE tr 6 1, readBE tr 7 1, readBE tr 8 8, readBE tr 16 8, readBE tr 24 8 with
      | some offSize, some refSize, some nObj, some top, some tableOff =>
        if (offSize = 1 ∨ offSize = 2 ∨ offSize = 4 ∨ offSize = 8) ∧
           (refSize = 1 ∨ refSize = 2 ∨ refSize = 4 ∨ refSize = 8) then
          let info : BPInfo := ⟨data, offSize, refSize, nObj, tableOff⟩
          match readRefs data offSize tableOff nObj with
          | none => none
          | some _ =>
            match readObjsF info (data.length + nObj + 8) [top] with
            | some [v] => some v
            | _ => none
        else none
      | _, _, _, _, _ => none
  else none

/-- Python iteration over a plist object, as used by `for obj in plist[k]`:
a list yields its elements, a dictionary its keys, a string its one-character
substrings. -/
def pvalIter : PVal → List PVal
  | .parr l => l
  | .pdict kvs => kvs.map Prod.fst
  | .pstr s => s.map (fun c => PVal.pstr [c])

/-- Structured-Archive Decoder (Method 3 of `extract_text_from_attributed_body`):
when the buffer starts with `b'bplist'`, decode it with plistlib; on a
dictionary with an entry for the string `$objects` (last duplicate key wins, as
in a Python dict), return the first iterated string of length above 1 that is
not one of the reserved sentinels; every error path yields `none`. -/
def archive_decode (data : List Nat) : Option (List Nat) :=
  if (ascii "bplist").isPrefixOf data then
    match bplistParse data with
    | some (.pdict kvs) =>
      match kvs.reverse.findSome? (fun kv =>
          match kv.1 with
          | .pstr k => if k = ascii "$objects" then some kv.2 else none
          | _ => none) with
      | some v =>
        (pvalIter v).findSome? (fun obj =>
          match obj with
          | .pstr s =>
            if 1 < s.length ∧ s ≠ ascii "$null" ∧ s ≠ ascii "NSString" ∧
               s ≠ ascii "NSMutableString"
            then some s else none
          | _ => none)
      | none => none
    | _ => none
  else none

/-- `extract_text_from_attributed_body`: empty input yields `None`; otherwise
Method 1 (proximity regex, whose match is decoded and stripped and returned
even when the strip result is empty), then Method 2 (Readable-Segment Scanner),
then Method 3 (Structured-Archive Decoder). -/
def extract_text_from_attributed_body (data : List Nat) : Option (List Nat) :=
  if data.isEmpty then none
  else
    match re_search1 data with
    | some g => some (pyStrip (utf8DecodeIgnore g))
    | none =>
      match readable_segment_scan data with
      | some s => some s
      | none => archive_decode data

/-!
Identifier Resolver (`resolve_contact`) and its contact directory.
-/

/-- One entry of the contact directory, as consumed by `resolve_contact`:
`contact.get("name")` (absent modelled as `none`), `contact.get("nicknames", [])`,
and `contact.get("platforms", {}).get("imessage", {})` flattened into the two
optional address fields (`.get("phone")` and `.get("email")`). -/
structure Contact where
  name : Option (List Nat)
  nicknames : List (List Nat)
  imPhone : Option (List Nat)
  imEmail : Option (List Nat)

/-- Python truthiness of an optional string: `None` and the empty string are
falsy. -/
def optTruthy : Option (List Nat) → Bool
  | none => false
  | some s => !s.isEmpty

/-- `imessage_info.get("phone") or imessage_info.get("email")`: the phone when
truthy, otherwise the email. -/
def contactAddr (c : Contact) : Option (List Nat) :=
  if optTruthy c.imPhone then c.imPhone else c.imEmail

/-- The body of the `for contact in contacts` loop for one entry: the exact
primary-name check first (returning `(name, addr)` only when the selected
address is truthy), then each nickname in order (returning
`(contact.get("name", nick), addr)`); `none` when the entry yields no return. -/
def entryResolve (idl : List Nat) (c : Contact) : Option (List Nat × List Nat) :=
  if idl = pyLower (c.name.getD []) ∧ optTruthy (contactAddr c) then
    some (c.name.getD [], (contactAddr c).getD [])
  else
    c.nicknames.findSome? (fun nick =>
      if idl = pyLower nick ∧ optTruthy (contactAddr c) then
        some (c.name.getD nick, (contactAddr c).getD [])
      else none)

/-- `resolve_contact`: pass identifiers that start with `+` or contain `@`
through unchanged; otherwise scan the directory entry by entry and return the
first resolution, falling back to `(identifier, identifier)`. -/
def resolve_contact (identifier : List Nat) (contacts : List Contact) :
    List Nat × List Nat :=
  if identifier.head? = some 0x2b ∨ identifier.contains 0x40 then (identifier, identifier)
  else
    match contacts.findSome? (entryResolve (pyLower identifier)) with
    | some r => r
    | none => (identifier, identifier)

/-!
History Query Engine (`get_messages`) over an explicit relational store.
-/

/-- A row of the `message` table (the columns the query touches). -/
structure MsgRow where
  text : Option (List Nat)
  attributedBody : Option (List Nat)
  is_from_me : Int
  date : Int
  handle_id : Nat

/-- A row of the `handle` table. -/
structure Handle where
  rowid : Nat
  hid : List Nat

/-- The datastore: the two tables the query joins. -/
structure Store where
  message : List MsgRow
  handle : List Handle

/-- A row produced by the SELECT: message columns plus the joined handle id. -/
structure JRow where
  text : Option (List Nat)
  attributedBody : Option (List Nat)
  is_from_me : Int
  date : Int
  hid : List Nat
deriving DecidableEq

/-- A returned message dict: keys `text`, `is_from_me`, `date`, `contact`. -/
structure OutMsg where
  text : List Nat
  is_from_me : Bool
  date : List Nat
  contact : List Nat
deriving DecidableEq

/-- Decimal rendering of a natural number as a code-point string. -/
def natDecimal (n : Nat) : List Nat := (Nat.toDigits 10 n).map Char.toNat

/-- Decimal rendering of an integer as a code-point string. -/
def intDecimal (i : Int) : List Nat :=
  if i < 0 then 0x2d :: natDecimal i.natAbs else natDecimal i.toNat

/-- Seconds between the Unix epoch and the Apple epoch. -/
def APPLE_EPOCH_OFFSET : Nat := 978307200

/-- The `formatted_date` column,
`datetime(m.date/1000000000 + 978307200, 'unixepoch', 'localtime')`.
Modelled: rendering a civil local time depends on the host timezone, which a
pure embedding cannot know, so the model renders the converted Unix seconds in
decimal (sqlite's integer division truncates toward zero, like `Int.div`).  No
verified claim inspects the contents of this string. -/
def formatDate (d : Int) : List Nat :=
  intDecimal (d / 1000000000 + (APPLE_EPOCH_OFFSET : Int))

/-- Leap-year rule of the Gregorian calendar (as in `datetime`). -/
def isLeap (y : Nat) : Bool := (y % 4 = 0 && y % 100 ≠ 0) || y % 400 = 0

/-- Days in a month, Gregorian. -/
def daysInMonth (y m : Nat) : Nat :=
  if m = 2 then (if isLeap y then 29 else 28)
  else if m = 4 ∨ m = 6 ∨ m = 9 ∨ m = 11 then 30 else 31

/-- Decimal digit test on code points. -/
def allDigits (l : List Nat) : Bool := l.all (fun c => 0x30 ≤ c && c ≤ 0x39)

/-- Numeric value of a digit string. -/
def digitsVal (l : List Nat) : Nat := l.foldl (fun a c => a * 10 + (c - 0x30)) 0

/-- Try to read `month-day` at the start of `l` with a month token of `k`
digits, consuming the whole string: used by `parseYMD` below. -/
def parseMDWith (y : Nat) (k : Nat) (l : List Nat) : Option (Nat × Nat × Nat) :=
  let m := l.take k
  let rest := l.drop k
  if m.length = k ∧ allDigits m ∧ rest.head? = some 0x2d then
    let d := rest.drop 1
    if (d.length = 1 ∨ d.length = 2) ∧ allDigits d ∧
       1 ≤ digitsVal m ∧ digitsVal m ≤ 12 ∧
       1 ≤ digitsVal d ∧ digitsVal d ≤ daysInMonth y (digitsVal m) then
      some (y, digitsVal m, digitsVal d)
    else none
  else none

/-- `datetime.strptime(s, "%Y-%m-%d")` as an accept/reject parser: exactly four
year digits (year at least 1, per `datetime.MINYEAR`), a dash, a one- or
two-digit month, a dash, a one- or two-digit day, nothing else; month and day
must form a valid calendar date.  The month/day token split is unambiguous, so
trying the two-digit month first matches the regex alternation of `_strptime`. -/
def parseYMD (s : List Nat) : Option (Nat × Nat × Nat) :=
  let ytok := s.take 4
  let rest := s.drop 4
  if ytok.length = 4 ∧ allDigits ytok ∧ 1 ≤ digitsVal ytok ∧ rest.head? = some 0x2d then
    match parseMDWith (digitsVal ytok) 2 (rest.drop 1) with
    | some r => some r
    | none => parseMDWith (digitsVal ytok) 1 (rest.drop 1)
  else none

/-- Days from 1970-01-01 to the given civil date (Howard Hinnant's algorithm,
matching `datetime.timestamp` for midnight UTC). -/
def daysFromCivil (y m d : Nat) : Int :=
  let yy : Int := if m ≤ 2 then (y : Int) - 1 else (y : Int)
  let era : Int := (if 0 ≤ yy then yy else yy - 399) / 400
  let yoe : Int := yy - era * 400
  let doy : Int := (153 * ((m : Int) + (if 2 < m then -3 else 9)) + 2) / 5 + (d : Int) - 1
  let doe : Int := yoe * 365 + yoe / 4 - yoe / 100 + doy
  era * 146097 + doe - 719468

/-- The Apple-epoch nanosecond lower bound computed from a parsed `--since`
date: `(since_date.timestamp() - APPLE_EPOCH_OFFSET) * 1_000_000_000`.
Modelled: `timestamp()` uses the host timezone and Python floats round above
2^53; the model is exact integer arithmetic at UTC.  No verified claim depends
on the numeric value of this bound. -/
def tsOfYMD : Nat × Nat × Nat → Int
  | (y, m, d) => (daysFromCivil y m d * 86400 - (APPLE_EPOCH_OFFSET : Int)) * 1000000000

/-- The effective optional date bound: `if since:` (Python truthiness), then
`strptime`, with `ValueError` handled by dropping the filter. -/
def sinceBound : Option (List Nat) → Option Int
  | none => none
  | some s => if s.isEmpty then none else (parseYMD s).map tsOfYMD

/-- Sort key of `ORDER BY m.date DESC`. -/
def dateDesc (a b : JRow) : Prop := b.date ≤ a.date

instance : DecidableRel dateDesc := fun a b => Int.decLe b.date a.date

instance : IsTotal JRow dateDesc := ⟨fun a b => Int.le_total b.date a.date⟩

instance : IsTrans JRow dateDesc := ⟨fun _ _ _ h1 h2 => le_trans h2 h1⟩

/-- sqlite `LIMIT n`: a negative limit means no limit. -/
def limTake (n : Int) (l : List JRow) : List JRow :=
  if n < 0 then l else l.take n.toNat

/-- The rows the sqlite query hands to the Python loop: `message LEFT JOIN
handle ON m.handle_id = h.ROWID WHERE h.id = ?` (the WHERE discards the NULL
rows of the left join, so it is an inner join) with the optional
`AND m.date >= ?` bound, `ORDER BY m.date DESC`, `LIMIT limit * 2`.  The sort
is modelled by a stable insertion sort; sqlite fixes no tie order, and no
verified claim distinguishes tie orders. -/
def sqlRows (st : Store) (cid : List Nat) (since : Option (List Nat)) (lim : Int) :
    List JRow :=
  let joined := st.message.flatMap (fun m =>
    (st.handle.filter (fun h => h.rowid = m.handle_id)).filterMap (fun h =>
      if h.hid = cid then some ⟨m.text, m.attributedBody, m.is_from_me, m.date, h.hid⟩
      else none))
  let dated := match sinceBound since with
    | some t => joined.filter (fun r => t ≤ r.date)
    | none => joined
  limTake (lim * 2) (List.insertionSort dateDesc dated)

/-- Per-row text resolution: the plain `text` column when non-empty after
trimming, otherwise the Attributed-Body Extractor on a truthy
`attributedBody`; `none` when both attempts leave no usable text (the row is
skipped). -/
def rowText (r : JRow) : Option (List Nat) :=
  let t0 := r.text
  let t1 := match t0 with
    | none =>
      (match r.attributedBody with
       | some ab => if ab.isEmpty then t0 else extract_text_from_attributed_body ab
       | none => t0)
    | some s =>
      if (pyStrip s).isEmpty then
        (match r.attributedBody with
         | some ab => if ab.isEmpty then t0 else extract_text_from_attributed_body ab
         | none => t0)
      else t0
  match t1 with
  | none => none
  | some s => if (pyStrip s).isEmpty then none else some s

/-- The keyword rejection test,
`if keyword and keyword.lower() not in text.lower()`. -/
def kwReject (kw : Option (List Nat)) (t : List Nat) : Bool :=
  match kw with
  | none => false
  | some k => !k.isEmpty && !hasSub (pyLower k) (pyLower t)

/-- The accumulation loop of `get_messages`: keep rows with resolvable text
that pass the keyword filter, and break once the accumulated count reaches
`limit` (checked after each append, against the running length `cnt`). -/
def msgLoop (lim : Int) (kw : Option (List Nat)) : Nat → List JRow → List JRow
  | _, [] => []
  | cnt, r :: rest =>
    match rowText r with
    | none => msgLoop lim kw cnt rest
    | some t =>
      if kwReject kw t then msgLoop lim kw cnt rest
      else if lim ≤ (cnt : Int) + 1 then [r] else r :: msgLoop lim kw (cnt + 1) rest

/-- The rows that survive the loop, in order. -/
def get_messagesRows (st : Store) (cid : List Nat) (lim : Int)
    (kw : Option (List Nat)) (since : Option (List Nat)) : List JRow :=
  msgLoop lim kw 0 (sqlRows st cid since lim)

/-- The dict appended for a surviving row. -/
def renderMsg (r : JRow) : OutMsg :=
  ⟨(rowText r).getD [], r.is_from_me ≠ 0, formatDate r.date, r.hid⟩

/-- `get_messages`: the surviving rows rendered in order. -/
def get_messages (st : Store) (cid : List Nat) (lim : Int)
    (kw : Option (List Nat)) (since : Option (List Nat)) : List OutMsg :=
  (get_messagesRows st cid lim kw since).map renderMsg

/-!
Connection lifecycle traces.  The Python functions have no try/finally; the
models make each fallible sqlite call's outcome an explicit parameter and
record, next to the function's result, whether every connection opened during
the call was closed before the function exited.
-/

/-- Outcome of a fallible sqlite call. -/
inductive DbStep where
  | ok
  | raiseOp
deriving DecidableEq

/-- Environment of one `check_fda_access` call: whether the store file exists,
and the outcomes of `sqlite3.connect` and of the probe `conn.execute`. -/
structure FdaEnv where
  dbExists : Bool
  connectStep : DbStep
  probeStep : DbStep

/-- `check_fda_access` with its connection trace: the missing-file path opens
nothing; a raising `connect` opens nothing and is caught; a raising probe is
caught and returns `False` with `conn.close()` never reached; the success path
closes and returns `True`.  First component: returned value; second: every
opened connection was closed before return. -/
def check_fda_access (env : FdaEnv) : Bool × Bool :=
  if !env.dbExists then (false, true)
  else
    match env.connectStep with
    | .raiseOp => (false, true)
    | .ok =>
      match env.probeStep with
      | .ok => (true, true)
      | .raiseOp => (false, false)

/-- Environment of one `get_messages` call: outcomes of `sqlite3.connect` and
of `conn.execute`/cursor iteration (query execution and per-row retrieval). -/
structure QueryEnv where
  connectStep : DbStep
  execStep : DbStep

/-- `get_messages` with its connection trace: a raising `connect` propagates
with nothing opened; a raising execution propagates before the final
`conn.close()` line runs; otherwise the pure pipeline result is returned and
the connection is closed.  First component: `some` result on normal return,
`none` when the exception propagates; second: every opened connection was
closed before the function exited. -/
def get_messages_traced (st : Store) (cid : List Nat) (lim : Int)
    (kw : Option (List Nat)) (since : Option (List Nat)) (env : QueryEnv) :
    Option (List OutMsg) × Bool :=
  match env.connectStep with
  | .raiseOp => (none, true)
  | .ok =>
    match env.execStep with
    | .raiseOp => (none, false)
    | .ok => (some (get_messages st cid lim kw since), true)

/-!
Spec-level predicate for claim C3: a byte string that consists only of the
archive format's structural-metadata tokens.
-/

/-- The archive spellings of the structural-metadata class names named by the
spec's exclusion set: the string-class, mutable-string-class and
attributed-string-class markers, and the stream header. -/
def metaArchiveTokens : List (List Nat) :=
  [ascii "NSString", ascii "NSMutableString", ascii "NSAttributedString",
   ascii "streamtyped"]

/-- Fueled worker for `isTokenConcat`; fuel equal to the string length always
suffices because every token is non-empty. -/
def tcF : Nat → List Nat → Bool
  | 0, _ => false
  | fuel + 1, s =>
    metaArchiveTokens.any (fun t =>
      !t.isEmpty && t.isPrefixOf s && ((s.drop t.length).isEmpty || tcF fuel (s.drop t.length)))

/-- The string is a concatenation of one or more structural-metadata tokens:
the formalization of a readable run whose text "consists only of" the archive
format's metadata tokens (claim C3). -/
def isTokenConcat (s : List Nat) : Bool := tcF s.length s

/-!
General lemmas.
-/

theorem tcF_head {n : Nat} {s : List Nat} (h : tcF n s = true) :
    ∃ t ∈ metaArchiveTokens, t.isEmpty = false ∧ t.isPrefixOf s = true := by
  cases n with
  | zero => simp [tcF] at h
  | succ m =>
    simp only [tcF, List.any_eq_true, Bool.and_eq_true, Bool.not_eq_true'] at h
    obtain ⟨t, ht, ⟨hne, hpre⟩, _⟩ := h
    exact ⟨t, ht, hne, hpre⟩

theorem hasSub_of_prefix {l1 l2 : List Nat} (h : l1 <+: l2) : hasSub l1 l2 = true := by
  cases l2 with
  | nil =>
    have : l1 = [] := List.prefix_nil.mp h
    simp [hasSub, this]
  | cons b rest =>
    have : l1.isPrefixOf (b :: rest) = true := List.isPrefixOf_iff_prefix.mpr h
    simp [hasSub, this]

theorem meta_excluded {t r : List Nat} (ht : t ∈ metaArchiveTokens)
    (hpre : t.isPrefixOf r = true) :
    (metaCodeTokens.any (fun ct => hasSub ct (bytesLower r))) = true := by
  have hp : t <+: r := List.isPrefixOf_iff_prefix.mp hpre
  have hlow : bytesLower t <+: bytesLower r := hp.map _
  rw [List.any_eq_true]
  simp only [metaArchiveTokens, List.mem_cons, List.not_mem_nil, or_false] at ht
  rcases ht with rfl | rfl | rfl | rfl
  · exact ⟨ascii "nsstring", by decide,
      hasSub_of_prefix (List.IsPrefix.trans
        (List.isPrefixOf_iff_prefix.mp (by decide)) hlow)⟩
  · exact ⟨ascii "nsmutablestring", by decide,
      hasSub_of_prefix (List.IsPrefix.trans
        (List.isPrefixOf_iff_prefix.mp (by decide)) hlow)⟩
  · exact ⟨ascii "nsattributed", by decide,
      hasSub_of_prefix (List.IsPrefix.trans
        (List.isPrefixOf_iff_prefix.mp (by decide)) hlow)⟩
  · exact ⟨ascii "streamtyped", by decide,
      hasSub_of_prefix (List.IsPrefix.trans
        (List.isPrefixOf_iff_prefix.mp (by decide)) hlow)⟩

theorem hasSub_nil (l : List Nat) : hasSub [] l = true := by
  cases l <;> simp [hasSub, List.isPrefixOf]

theorem runsGo_first : ∀ (l acc : List Nat), acc.isEmpty = false →
    ∃ r rs tl, runsGo l acc = r :: rs ∧ r = acc.reverse ++ tl := by
  intro l
  induction l with
  | nil =>
    intro acc hacc
    exact ⟨acc.reverse, [], [], by simp [runsGo, hacc], by simp⟩
  | cons b l ih =>
    intro acc hacc
    by_cases hb : isReadable b = true
    · obtain ⟨r, rs, tl, heq, hr⟩ := ih (b :: acc) (by simp)
      refine ⟨r, rs, b :: tl, ?_, ?_⟩
      · simpa [runsGo, hb] using heq
      · rw [hr, List.reverse_cons, List.append_assoc, List.singleton_append]
    · exact ⟨acc.reverse, runsGo l [], [], by simp [runsGo, hb, hacc], by simp⟩

theorem dropWhile_self_idem (p : Nat → Bool) (l : List Nat) :
    (l.dropWhile p).dropWhile p = l.dropWhile p := by
  induction l with
  | nil => rfl
  | cons a l ih =>
    by_cases h : p a = true
    · simp [List.dropWhile_cons, h, ih]
    · simp [List.dropWhile_cons, h]

theorem head_dropWhile_false (p : Nat → Bool) :
    ∀ (l : List Nat) {a : Nat}, (l.dropWhile p).head? = some a → p a = false := by
  intro l
  induction l with
  | nil => intro a h; simp [List.dropWhile] at h
  | cons b l ih =>
    intro a h
    by_cases hb : p b = true
    · rw [List.dropWhile_cons, if_pos hb] at h
      exact ih h
    · rw [List.dropWhile_cons, if_neg hb] at h
      simp only [List.head?_cons, Option.some.injEq] at h
      rw [← h]
      exact Bool.eq_false_iff.mpr hb

theorem pyStrip_idem (s : List Nat) : pyStrip (pyStrip s) = pyStrip s := by
  unfold pyStrip
  have h1 : ((((s.dropWhile isWs).reverse.dropWhile isWs).reverse).dropWhile isWs) =
      ((s.dropWhile isWs).reverse.dropWhile isWs).reverse := by
    rcases hv : ((s.dropWhile isWs).reverse.dropWhile isWs).reverse with _ | ⟨a, v⟩
    · simp
    · have hsuf : (s.dropWhile isWs).reverse.dropWhile isWs <:+ (s.dropWhile isWs).reverse :=
        List.dropWhile_suffix isWs
      have hpre : ((s.dropWhile isWs).reverse.dropWhile isWs).reverse <+: s.dropWhile isWs := by
        apply List.reverse_suffix.mp
        rw [List.reverse_reverse]
        exact hsuf
      rw [hv] at hpre
      obtain ⟨q, hq⟩ := hpre
      rw [List.cons_append] at hq
      have hhead : (s.dropWhile isWs).head? = some a := by rw [← hq]; rfl
      have ha : isWs a = false := head_dropWhile_false isWs s hhead
      rw [List.dropWhile_cons, if_neg (by simp [ha])]
  rw [h1, List.reverse_reverse, dropWhile_self_idem]

theorem scan_none_of_tokens {data : List Nat}
    (htok : ∀ r ∈ runs data, isTokenConcat r = true) :
    readable_segment_scan data = none := by
  unfold readable_segment_scan
  split
  · rfl
  · rename_i s0 srest hsegs
    have hexc : ∀ s ∈ s0 :: srest,
        (metaCodeTokens.any (fun t => hasSub t (bytesLower s))) = true := by
      intro s hs
      have hsr : s ∈ runs data := by
        have hmem : s ∈ (runs data).filter (fun r => decide (4 ≤ r.length)) := by
          rw [hsegs]; exact hs
        exact (List.mem_filter.mp hmem).1
      obtain ⟨t, htm, _, hpre⟩ := tcF_head (htok s hsr)
      exact meta_excluded htm hpre
    have hfil : (s0 :: srest).filter
        (fun s => !(metaCodeTokens.any (fun t => hasSub t (bytesLower s)))) = [] := by
      apply List.filter_eq_nil_iff.mpr
      intro a ha
      simp [hexc a ha]
    rw [hfil]

theorem scan_some_strip {data s : List Nat} (h : readable_segment_scan data = some s) :
    pyStrip s = s ∧ s ≠ [] := by
  unfold readable_segment_scan at h
  split at h
  · exact absurd h (by simp)
  · split at h
    · exact absurd h (by simp)
    · dsimp only at h
      split at h
      · exact absurd h (by simp)
      · rename_i hne
        rw [Option.some.injEq] at h
        subst h
        exact ⟨pyStrip_idem _, fun hnil => hne (by simp [hnil])⟩

theorem archive_decode_long {data s : List Nat} (h : archive_decode data = some s) :
    1 < s.length := by
  unfold archive_decode at h
  split at h
  · split at h
    · split at h
      · obtain ⟨obj, _, hobj⟩ := List.exists_of_findSome?_eq_some h
        rcases obj with s' | l | kvs
        · dsimp only at hobj
          split at hobj
          · rename_i hcond
            rw [Option.some.injEq] at hobj
            subst hobj
            exact hcond.1
          · exact Option.noConfusion hobj
        · exact Option.noConfusion hobj
        · exact Option.noConfusion hobj
      · exact Option.noConfusion h
    · exact Option.noConfusion h
  · exact Option.noConfusion h

theorem mem_msgLoop {lim : Int} {kw : Option (List Nat)} :
    ∀ (rows : List JRow) (cnt : Nat) (r : JRow), r ∈ msgLoop lim kw cnt rows →
      ∃ t, rowText r = some t ∧ kwReject kw t = false := by
  intro rows
  induction rows with
  | nil => intro cnt r h; simp [msgLoop] at h
  | cons r0 rest ih =>
    intro cnt r h
    rcases h0 : rowText r0 with _ | t0
    · simp only [msgLoop, h0] at h; exact ih cnt r h
    · simp only [msgLoop, h0] at h
      by_cases hk : kwReject kw t0 = true
      · rw [if_pos hk] at h; exact ih cnt r h
      · rw [if_neg hk] at h
        by_cases hl : lim ≤ (cnt : Int) + 1
        · rw [if_pos hl] at h
          rw [List.mem_singleton] at h
          subst h
          exact ⟨t0, h0, Bool.eq_false_iff.mpr hk⟩
        · rw [if_neg hl] at h
          rcases List.mem_cons.mp h with rfl | hmem
          · exact ⟨t0, h0, Bool.eq_false_iff.mpr hk⟩
          · exact ih (cnt + 1) r hmem

theorem msgLoop_length {lim : Int} {kw : Option (List Nat)} :
    ∀ (rows : List JRow) (cnt : Nat), (cnt : Int) < lim →
      ((msgLoop lim kw cnt rows).length : Int) ≤ lim - cnt := by
  intro rows
  induction rows with
  | nil => intro cnt h; simp [msgLoop]; omega
  | cons r0 rest ih =>
    intro cnt h
    rcases h0 : rowText r0 with _ | t0
    · simp only [msgLoop, h0]; exact ih cnt h
    · simp only [msgLoop, h0]
      by_cases hk : kwReject kw t0 = true
      · rw [if_pos hk]; exact ih cnt h
      · rw [if_neg hk]
        by_cases hl : lim ≤ (cnt : Int) + 1
        · rw [if_pos hl]; simp; omega
        · rw [if_neg hl]
          have hrec := ih (cnt + 1) (by omega)
          rw [List.length_cons]
          push_cast at hrec ⊢
          omega

theorem msgLoop_sublist {lim : Int} {kw : Option (List Nat)} :
    ∀ (rows : List JRow) (cnt : Nat), List.Sublist (msgLoop lim kw cnt rows) rows := by
  intro rows
  induction rows with
  | nil => intro cnt; simp [msgLoop]
  | cons r0 rest ih =>
    intro cnt
    rcases h0 : rowText r0 with _ | t0
    · simp only [msgLoop, h0]; exact (ih cnt).cons r0
    · simp only [msgLoop, h0]
      by_cases hk : kwReject kw t0 = true
      · rw [if_pos hk]; exact (ih cnt).cons r0
      · rw [if_neg hk]
        by_cases hl : lim ≤ (cnt : Int) + 1
        · rw [if_pos hl]; exact (List.nil_sublist rest).cons₂ r0
        · rw [if_neg hl]; exact (ih (cnt + 1)).cons₂ r0

theorem limTake_sort_pairwise (n : Int) (l : List JRow) :
    (limTake n (List.insertionSort dateDesc l)).Pairwise dateDesc := by
  have hs : (List.insertionSort dateDesc l).Pairwise dateDesc :=
    List.sorted_insertionSort dateDesc l
  unfold limTake
  split
  · exact hs
  · exact List.Pairwise.sublist ((List.take_prefix _ _).sublist) hs

theorem sqlRows_pairwise (st : Store) (cid : List Nat) (since : Option (List Nat))
    (lim : Int) : (sqlRows st cid since lim).Pairwise dateDesc := by
  unfold sqlRows
  exact limTake_sort_pairwise _ _

theorem entryResolve_no_addr {idl : List Nat} {c : Contact}
    (h : optTruthy (contactAddr c) = false) : entryResolve idl c = none := by
  unfold entryResolve
  rw [if_neg (by simp [h])]
  apply List.findSome?_eq_none_iff.mpr
  intro nick _
  rw [if_neg (by simp [h])]

theorem findSome?_middle_none {f : Contact → Option (List Nat × List Nat)} {c : Contact}
    (h : f c = none) (l1 l2 : List Contact) :
    (l1 ++ c :: l2).findSome? f = (l1 ++ l2).findSome? f := by
  induction l1 with
  | nil => simp [List.findSome?_cons, h]
  | cons a l ih =>
    rw [List.cons_append, List.cons_append, List.findSome?_cons, List.findSome?_cons, ih]

/-!
Concrete buffers used by counterexamples and witnesses.
-/

/-- A well-formed binary plist (verified against `plistlib.loads`) whose
object table is `['$null', 'Hello!']` under the `$objects` key, and whose
readable runs also contain non-metadata text such as `U$nullVHello!`. -/
def B1 : List Nat :=
  (ascii "bplist00") ++ [0xd1, 0x01, 0x02, 0x58] ++ ascii "$objects" ++
  [0xa2, 0x03, 0x04, 0x55] ++ ascii "$null" ++ [0x56] ++ ascii "Hello!" ++
  [0x08, 0x0b, 0x14, 0x17, 0x1d] ++
  [0, 0, 0, 0, 0, 0, 1, 1] ++ [0, 0, 0, 0, 0, 0, 0, 5] ++
  [0, 0, 0, 0, 0, 0, 0, 0] ++ [0, 0, 0, 0, 0, 0, 0, 0x24]

/-- A buffer whose single readable run is the concatenation of two string-class
markers, and which therefore triggers the proximity regex. -/
def tokenOnlyBuf : List Nat := ascii "NSStringNSString"

/-- The marker followed by one unreadable byte and a whitespace-only readable
run: the proximity regex matches and Method 1 returns the empty string. -/
def blankMatchBuf : List Nat := ascii "NSString" ++ [0x01, 0x20, 0x20]

/-- Claim C1 (counterexample): the claimed strategy order is regex, then
Structured-Archive Decoder, then Readable-Segment Scanner.  On `B1` the regex
yields nothing, the decoder is applicable (the buffer starts with the container
signature) and yields `Hello!`, yet the extractor returns the scanner's
`U$nullVHello!`: the scanner runs before the decoder, so the claimed order is
wrong. -/
theorem c1_claim_counterexample :
    (ascii "bplist").isPrefixOf B1 = true ∧
    re_search1 B1 = none ∧
    archive_decode B1 = some (ascii "Hello!") ∧
    extract_text_from_attributed_body B1 = some (ascii "U$nullVHello!") ∧
    ascii "U$nullVHello!" ≠ ascii "Hello!" := by
  decide

/-- Claim C1 (amended): the Attributed-Body Extractor tries the proximity
regex first, then the Readable-Segment Scanner, then the Structured-Archive
Decoder, and returns the result of the first strategy in that order that
yields one. -/
theorem c1_order_amended (data : List Nat) (h : data.isEmpty = false) :
    (∀ g, re_search1 data = some g →
       extract_text_from_attributed_body data = some (pyStrip (utf8DecodeIgnore g))) ∧
    (re_search1 data = none → ∀ s, readable_segment_scan data = some s →
       extract_text_from_attributed_body data = some s) ∧
    (re_search1 data = none → readable_segment_scan data = none →
       extract_text_from_attributed_body data = archive_decode data) := by
  refine ⟨?_, ?_, ?_⟩
  · intro g hg
    unfold extract_text_from_attributed_body
    rw [if_neg (by simp [h]), hg]
  · intro hre s hs
    unfold extract_text_from_attributed_body
    rw [if_neg (by simp [h]), hre, hs]
  · intro hre hs
    unfold extract_text_from_attributed_body
    rw [if_neg (by simp [h]), hre, hs]

/-- Witness for `c1_order_amended` at the concrete buffer `B1`. -/
theorem c1_order_amended_witness :
    re_search1 B1 = none ∧ readable_segment_scan B1 = some (ascii "U$nullVHello!") ∧
    extract_text_from_attributed_body B1 = some (ascii "U$nullVHello!") :=
  ⟨by decide, by decide,
   (c1_order_amended B1 (by decide)).2.1 (by decide) (ascii "U$nullVHello!") (by decide)⟩

/-- Claim C3 (counterexample): a buffer whose readable content is exactly two
concatenated string-class markers is token-only, yet the extractor returns
`SString` — the proximity regex matches the first marker and captures the tail
of the second as its group. -/
theorem c3_claim_counterexample :
    (∀ r ∈ runs tokenOnlyBuf, isTokenConcat r = true) ∧
    extract_text_from_attributed_body tokenOnlyBuf = some (ascii "SString") := by
  decide

/-- Claim C3 (amended): on a buffer whose readable runs are all concatenations
of structural-metadata tokens, and on which the proximity regex finds no
match, the Attributed-Body Extractor returns `None`: the scanner filters every
run out, and the buffer cannot carry the container signature. -/
theorem c3_tokens_amended (data : List Nat)
    (htok : ∀ r ∈ runs data, isTokenConcat r = true)
    (hre : re_search1 data = none) :
    extract_text_from_attributed_body data = none := by
  have hscan := scan_none_of_tokens htok
  have hnb : ¬((ascii "bplist").isPrefixOf data = true) := by
    intro hb
    obtain ⟨tl0, htl0⟩ := List.isPrefixOf_iff_prefix.mp hb
    have hdata : data = 98 :: ([112, 108, 105, 115, 116] ++ tl0) := by
      rw [← htl0]; rfl
    obtain ⟨r, rs, tl, heq, hr⟩ := runsGo_first ([112, 108, 105, 115, 116] ++ tl0) [98] rfl
    have hruns : runs data = r :: rs := by rw [hdata]; exact heq
    have hr' : r = 98 :: tl := by simpa using hr
    have hmem : r ∈ runs data := by rw [hruns]; exact List.mem_cons_self r rs
    obtain ⟨t, tmem, tne, tpre⟩ := tcF_head (htok r hmem)
    obtain ⟨q, hq⟩ := List.isPrefixOf_iff_prefix.mp tpre
    have hhead : ∀ u ∈ metaArchiveTokens, u.head? = some 78 ∨ u.head? = some 115 := by
      decide
    cases t with
    | nil => simp at tne
    | cons t0 t1 =>
      rw [hr', List.cons_append] at hq
      have h98 : t0 = 98 := by
        have hinj := congrArg List.head? hq
        simpa using hinj
      rcases hhead _ tmem with hh | hh <;> simp at hh <;> omega
  have harc : archive_decode data = none := by
    unfold archive_decode
    rw [if_neg hnb]
  by_cases hdata : data.isEmpty = true
  · unfold extract_text_from_attributed_body
    rw [if_pos hdata]
  · unfold extract_text_from_attributed_body
    rw [if_neg hdata, hre, hscan, harc]

/-- Witness for `c3_tokens_amended` at the single token `NSString`. -/
theorem c3_tokens_amended_witness :
    (∀ r ∈ runs (ascii "NSString"), isTokenConcat r = true) ∧
    re_search1 (ascii "NSString") = none ∧
    extract_text_from_attributed_body (ascii "NSString") = none :=
  ⟨by decide, by decide, c3_tokens_amended (ascii "NSString") (by decide) (by decide)⟩

/-- Claim C4 (counterexample): on `NSString` followed by an unreadable byte
and two spaces, the extractor returns the empty string (the Method 1 return is
the stripped decode of the whitespace-only group, with no emptiness check),
not `None` and not a string that is non-empty after trimming. -/
theorem c4_claim_counterexample :
    extract_text_from_attributed_body blankMatchBuf = some [] := by
  decide

/-- Claim C4 (amended): the extractor returns `None` or a string; any returned
string is either equal to its own whitespace-trim — and may then be empty,
from the proximity-regex path — or has length above one, verbatim from the
archive-decoder path. -/
theorem c4_trim_amended (data : List Nat) :
    extract_text_from_attributed_body data = none ∨
    ∃ s, extract_text_from_attributed_body data = some s ∧
      (pyStrip s = s ∨ 1 < s.length) := by
  rcases hres : extract_text_from_attributed_body data with _ | s
  · exact Or.inl rfl
  · refine Or.inr ⟨s, rfl, ?_⟩
    unfold extract_text_from_attributed_body at hres
    split at hres
    · exact absurd hres (by simp)
    · rcases hre : re_search1 data with _ | g
      · rw [hre] at hres
        rcases hscan : readable_segment_scan data with _ | s'
        · rw [hscan] at hres
          have harc : archive_decode data = some s := hres
          exact Or.inr (archive_decode_long harc)
        · rw [hscan] at hres
          have hs : s' = s := by simpa using hres
          subst hs
          exact Or.inl (scan_some_strip hscan).1
      · rw [hre] at hres
        have hs : pyStrip (utf8DecodeIgnore g) = s := by simpa using hres
        rw [← hs]
        exact Or.inl (pyStrip_idem _)

/-!
Concrete directory entries for the resolver claims.
-/

/-- First entry: primary name `Alpha`, nickname `jim`, phone `+1`. -/
def contactAlpha : Contact := ⟨some (ascii "Alpha"), [ascii "jim"], some (ascii "+1"), none⟩

/-- Second entry: primary name `Jim`, no nicknames, phone `+2`. -/
def contactJim : Contact := ⟨some (ascii "Jim"), [], some (ascii "+2"), none⟩

/-- An entry whose name matches `Jim` but which has no iMessage address. -/
def contactNoAddr : Contact := ⟨some (ascii "Jim"), [], none, none⟩

/-- Claim C2 (counterexample): with the directory `[Alpha, Jim]` and input
`Jim`, the second entry is an exact case-insensitive primary-name match with a
usable address, yet the resolver returns the first entry's nickname resolution
`(Alpha, +1)`: the code checks each entry's name and nicknames together while
scanning entries once, so an earlier nickname match beats a later exact-name
match. -/
theorem c2_claim_counterexample :
    resolve_contact (ascii "Jim") [contactAlpha, contactJim] = (ascii "Alpha", ascii "+1") ∧
    pyLower (contactJim.name.getD []) = pyLower (ascii "Jim") ∧
    optTruthy (contactAddr contactJim) = true ∧
    (ascii "Alpha", ascii "+1") ≠ (contactJim.name.getD [], (contactAddr contactJim).getD []) := by
  decide

/-- Claim C2 (amended): the exact primary-name check precedes the nickname
checks only within a single entry; entries are scanned in order, so when no
earlier entry yields any match, an entry whose primary name matches exactly
(with a usable address) resolves to that entry's name and address. -/
theorem c2_precedence_amended (id : List Nat) (d1 d2 : List Contact) (c : Contact)
    (hpass : ¬(id.head? = some 0x2b ∨ id.contains 0x40))
    (hd1 : ∀ c' ∈ d1, entryResolve (pyLower id) c' = none)
    (hname : pyLower id = pyLower (c.name.getD []))
    (haddr : optTruthy (contactAddr c) = true) :
    resolve_contact id (d1 ++ c :: d2) = (c.name.getD [], (contactAddr c).getD []) := by
  unfold resolve_contact
  rw [if_neg hpass]
  have h1 : d1.findSome? (entryResolve (pyLower id)) = none :=
    List.findSome?_eq_none_iff.mpr hd1
  have h2 : entryResolve (pyLower id) c = some (c.name.getD [], (contactAddr c).getD []) := by
    unfold entryResolve
    rw [if_pos ⟨hname, haddr⟩]
  rw [List.findSome?_append, h1, Option.none_or, List.findSome?_cons, h2]

/-- Witness for `c2_precedence_amended`: with the one-entry directory `[Jim]`
the input `Jim` resolves to `(Jim, +2)`. -/
theorem c2_precedence_amended_witness :
    resolve_contact (ascii "Jim") [contactJim] = (ascii "Jim", ascii "+2") :=
  c2_precedence_amended (ascii "Jim") [] [] contactJim (by decide) (by decide)
    (by decide) (by decide)

/-- Claim C10 (confirmed): an entry with neither an iMessage phone nor email
never resolves — removing it from any position leaves every resolution
unchanged — and when every matching entry lacks a usable address the resolver
returns the input paired with itself. -/
theorem c10_skip_addressless :
    (∀ (id : List Nat) (l1 l2 : List Contact) (c : Contact),
       c.imPhone = none → c.imEmail = none →
       resolve_contact id (l1 ++ c :: l2) = resolve_contact id (l1 ++ l2)) ∧
    (∀ (id : List Nat) (d : List Contact),
       (∀ c ∈ d, (pyLower id = pyLower (c.name.getD []) ∨
                  ∃ nick ∈ c.nicknames, pyLower id = pyLower nick) →
                 optTruthy (contactAddr c) = false) →
       resolve_contact id d = (id, id)) := by
  constructor
  · intro id l1 l2 c hp he
    unfold resolve_contact
    by_cases hpass : id.head? = some 0x2b ∨ id.contains 0x40
    · rw [if_pos hpass, if_pos hpass]
    · rw [if_neg hpass, if_neg hpass]
      have hc : entryResolve (pyLower id) c = none :=
        entryResolve_no_addr (by simp [contactAddr, hp, he, optTruthy])
      rw [findSome?_middle_none hc]
  · intro id d hall
    unfold resolve_contact
    by_cases hpass : id.head? = some 0x2b ∨ id.contains 0x40
    · rw [if_pos hpass]
    · rw [if_neg hpass]
      have hnone : d.findSome? (entryResolve (pyLower id)) = none := by
        apply List.findSome?_eq_none_iff.mpr
        intro c hc
        by_cases hmatch : pyLower id = pyLower (c.name.getD []) ∨
            ∃ nick ∈ c.nicknames, pyLower id = pyLower nick
        · exact entryResolve_no_addr (hall c hc hmatch)
        · push_neg at hmatch
          obtain ⟨hn, hnick⟩ := hmatch
          unfold entryResolve
          rw [if_neg (fun hcon => hn hcon.1)]
          apply List.findSome?_eq_none_iff.mpr
          intro nick hnickmem
          rw [if_neg (fun hcon => hnick nick hnickmem hcon.1)]
      rw [hnone]

/-- Witness for `c10_skip_addressless`: dropping the addressless `Jim` entry
leaves resolution unchanged, and a directory holding only the addressless
entry resolves `Jim` to itself. -/
theorem c10_skip_addressless_witness :
    resolve_contact (ascii "Jim") (contactNoAddr :: [contactJim]) =
      resolve_contact (ascii "Jim") [contactJim] ∧
    resolve_contact (ascii "Jim") [contactNoAddr] = (ascii "Jim", ascii "Jim") :=
  ⟨c10_skip_addressless.1 (ascii "Jim") [] [contactJim] contactNoAddr rfl rfl,
   c10_skip_addressless.2 (ascii "Jim") [contactNoAddr] (by decide)⟩

/-!
Concrete store for the query-engine witnesses.
-/

/-- A small store: three rows for handle `+61400000000` (one with text only in
the attributed body) and one row for another handle. -/
def stWit : Store :=
  ⟨[⟨some (ascii "Movie night"), none, 1, 500, 1⟩,
    ⟨some (ascii "old msg"), none, 0, 100, 1⟩,
    ⟨none, some (ascii "NSString" ++ [0x01] ++ ascii "see you then" ++ [0x00]), 0, 300, 1⟩,
    ⟨some (ascii "other person"), none, 0, 400, 2⟩],
   [⟨1, ascii "+61400000000"⟩, ⟨2, ascii "+15550000000"⟩]⟩

/-- Claim C5 (confirmed): when a keyword is supplied, every message returned
by the History Query Engine has text containing the keyword as a
case-insensitive substring; equivalently, no row whose resolved text lacks the
keyword is returned. -/
theorem c5_keyword_filter (st : Store) (cid : List Nat) (lim : Int)
    (kw : List Nat) (since : Option (List Nat)) (m : OutMsg)
    (hm : m ∈ get_messages st cid lim (some kw) since) :
    hasSub (pyLower kw) (pyLower m.text) = true := by
  obtain ⟨r, hr, hrend⟩ := List.mem_map.mp hm
  obtain ⟨t, hts, hkf⟩ := mem_msgLoop _ 0 r hr
  have htext : m.text = t := by
    rw [← hrend]
    simp [renderMsg, hts]
  rw [htext]
  rcases Bool.and_eq_false_iff.mp hkf with hemp | hsub
  · have hk : kw = [] := by simpa using hemp
    subst hk
    exact hasSub_nil _
  · simpa using hsub

/-- Witness for `c5_keyword_filter` on the concrete store. -/
theorem c5_keyword_filter_witness :
    (⟨ascii "see you then", false, natDecimal 978307200, ascii "+61400000000"⟩ : OutMsg) ∈
      get_messages stWit (ascii "+61400000000") 10 (some (ascii "SEE")) none ∧
    hasSub (pyLower (ascii "SEE")) (pyLower (ascii "see you then")) = true :=
  ⟨by decide,
   c5_keyword_filter stWit (ascii "+61400000000") 10 (ascii "SEE") none
     ⟨ascii "see you then", false, natDecimal 978307200, ascii "+61400000000"⟩ (by decide)⟩

/-- Claim C6 (confirmed): for every store, address and filter whose maximum
result count satisfies the QueryFilter invariant `limit ≥ 1`, the engine
returns at most `limit` messages (for a negative limit — excluded by the
invariant — sqlite's `LIMIT` is unbounded and the loop's break fires only
after the first append, so the hypothesis is needed). -/
theorem c6_limit_respected (st : Store) (cid : List Nat) (lim : Int)
    (kw : Option (List Nat)) (since : Option (List Nat)) (h : 1 ≤ lim) :
    ((get_messages st cid lim kw since).length : Int) ≤ lim := by
  unfold get_messages get_messagesRows
  rw [List.length_map]
  have hlen := @msgLoop_length lim kw (sqlRows st cid since lim) 0 (by omega)
  simpa using hlen

/-- Witness for `c6_limit_respected`: the concrete store holds three matching
rows but a limit of 2 returns at most 2. -/
theorem c6_limit_respected_witness :
    (1 : Int) ≤ 2 ∧
    ((get_messages stWit (ascii "+61400000000") 2 none none).length : Int) ≤ 2 :=
  ⟨by decide, c6_limit_respected stWit (ascii "+61400000000") 2 none none (by decide)⟩

/-- Claim C7 (confirmed): the surviving rows are a sublist of the
timestamp-descending query output, so the returned sequence — their per-row
rendering, in order — is non-increasing in the store-native timestamp; no
resolution or filtering step reorders rows. -/
theorem c7_order_preserved (st : Store) (cid : List Nat) (lim : Int)
    (kw : Option (List Nat)) (since : Option (List Nat)) :
    List.Sublist (get_messagesRows st cid lim kw since) (sqlRows st cid since lim) ∧
    (get_messagesRows st cid lim kw since).Pairwise dateDesc ∧
    get_messages st cid lim kw since = (get_messagesRows st cid lim kw since).map renderMsg :=
  ⟨msgLoop_sublist _ 0,
   List.Pairwise.sublist (msgLoop_sublist _ 0) (sqlRows_pairwise st cid since lim),
   rfl⟩

/-- Claim C8 (confirmed): a `--since` string that `strptime` rejects makes the
engine silently drop the date bound — the model raises nothing — and return
exactly the result of the call without a date bound. -/
theorem c8_invalid_date_dropped (st : Store) (cid : List Nat) (lim : Int)
    (kw : Option (List Nat)) (s : List Nat) (h : parseYMD s = none) :
    get_messages st cid lim kw (some s) = get_messages st cid lim kw none := by
  have hb : sinceBound (some s) = sinceBound none := by
    simp only [sinceBound, h, Option.map_none']
    split <;> rfl
  unfold get_messages get_messagesRows sqlRows
  rw [hb]

/-- Witness for `c8_invalid_date_dropped` at the invalid date `2025-13-01`. -/
theorem c8_invalid_date_dropped_witness :
    parseYMD (ascii "2025-13-01") = none ∧
    get_messages stWit (ascii "+61400000000") 10 none (some (ascii "2025-13-01")) =
      get_messages stWit (ascii "+61400000000") 10 none none :=
  ⟨by decide,
   c8_invalid_date_dropped stWit (ascii "+61400000000") 10 none (ascii "2025-13-01")
     (by decide)⟩

/-- Claim C9 (counterexample): the probe of the Datastore Access Guard has no
try/finally — when `conn.execute` raises after a successful `connect`, the
`except` branch returns `False` without reaching `conn.close()`; likewise a
raising query execution in `get_messages` propagates past the final
`conn.close()` line.  The opened connection is not closed on these exit
paths. -/
theorem c9_claim_counterexample :
    (check_fda_access ⟨true, .ok, .raiseOp⟩).2 = false ∧
    (get_messages_traced stWit (ascii "+61400000000") 10 none none ⟨.ok, .raiseOp⟩).2 = false := by
  constructor
  · rfl
  · rfl

/-- Claim C9 (amended): the connection is closed on every exit path except
when a call raises after the connection was opened: exactly the probe-raise
path of `check_fda_access` and the execution-raise path of `get_messages`
leave the opened connection unclosed. -/
theorem c9_close_amended (envF : FdaEnv) (st : Store) (cid : List Nat) (lim : Int)
    (kw : Option (List Nat)) (since : Option (List Nat)) (envQ : QueryEnv) :
    ((check_fda_access envF).2 = false ↔
      envF.dbExists = true ∧ envF.connectStep = .ok ∧ envF.probeStep = .raiseOp) ∧
    ((get_messages_traced st cid lim kw since envQ).2 = false ↔
      envQ.connectStep = .ok ∧ envQ.execStep = .raiseOp) := by
  obtain ⟨ex, cs, ps⟩ := envF
  obtain ⟨qc, qe⟩ := envQ
  cases ex <;> cases cs <;> cases ps <;> cases qc <;> cases qe <;>
    simp [check_fda_access, get_messages_traced]
